import Mathlib

/-!
Shallow embedding of `src/ingest_HDF5.py` from the `tick_db` repository: a
chunked HDF5 → PostgreSQL ETL pipeline for tick (market-event) data.

Modelling conventions:
* machine integers are `ℕ`/`ℤ`; the Python float division used by `divide`
  and the loop bound `int(round(R / chunk + 0.5))` are modelled exactly
  (over `ℚ` resp. by case analysis on divisibility);
* byte strings are `List ℕ`, decoded text is `List Char`;
* numpy arrays are Lean lists; `a[start:end]` is `(a.take end).drop start`
  (numpy slicing clamps out-of-range bounds exactly like this);
* the PostgreSQL side (product table, file_log ledger) is explicit state
  passing over Lean lists of rows.
-/

namespace TickDB

/-- `divide` from `ingest_HDF5.py:45-49`: `if b == 0: return 0.0` else
`float(a)/b`, modelled over `ℚ` (the scales and raw values used in the script
are exact in both double and rational arithmetic). -/
def divide (a b : ℚ) : ℚ :=
  if b = 0 then 0 else a / b

/-- The iteration count of the chunk loop, `int(round(number_of_rows / chunk + 0.5))`
at `ingest_HDF5.py:63` with `chunk = 1000000` (line 59), float arithmetic
modelled exactly.  Python 3 `round` is round-half-to-even: `R / chunk + 0.5`
is exactly half-way iff `chunk ∣ R`, in which case quotient `k` rounds to `k`
for even `k` and `k + 1` for odd `k`; otherwise the value lies strictly
between `k + 1/2` and `k + 3/2` (`k` the floor quotient) and rounds to `k + 1`. -/
def chunkCount (R : ℕ) : ℕ :=
  if R % 1000000 = 0 then
    if (R / 1000000) % 2 = 0 then R / 1000000 else R / 1000000 + 1
  else R / 1000000 + 1

/-- One iteration of the chunk loop (`ingest_HDF5.py:63-68`): `start = count * chunk`;
the body runs only `if number_of_rows > start`; `end = (count + 1) * chunk`, reassigned
to `number_of_rows` only when `number_of_rows < chunk`. -/
def chunkBody (R count : ℕ) : Option (ℕ × ℕ) :=
  let s := count * 1000000
  if R > s then
    some (s, if R < 1000000 then R else (count + 1) * 1000000)
  else none

/-- The sequence of `(start, end)` ranges emitted by the chunk loop of
`assemble_data_as_string` (`ingest_HDF5.py:63-68`). -/
def chunkRanges (R : ℕ) : List (ℕ × ℕ) :=
  (List.range (chunkCount R)).filterMap (chunkBody R)

/-- The length of Python `zip(*arrays)`: the minimum of the input lengths
(`zip()` of no iterables is empty). -/
def pyZipLen {α : Type} (arrays : List (List α)) : ℕ :=
  match arrays.map List.length with
  | [] => 0
  | n :: ns => ns.foldl min n

/-- Python `zip(*arrays)` as used at `ingest_HDF5.py:136-137`: truncates to the
shortest input and yields, for each row index `i` below that length, the list
of `i`-th elements of the inputs. -/
def pyZip {α : Type} (arrays : List (List α)) : List (List α) :=
  (List.range (pyZipLen arrays)).map (fun i => arrays.filterMap (fun a => a[i]?))

/-- `arrays_to_CSV_string` (`ingest_HDF5.py:134-138`):
`'\n'.join(','.join(str(x) for x in row) for row in zip(*arrays))`, modelled at
the level of already-rendered field strings (`str` applied to a string is the
identity; numeric and timestamp rendering happens before this point). -/
def arrays_to_CSV_string (arrays : List (List (List Char))) : List Char :=
  List.intercalate ['\n'] ((pyZip arrays).map (fun row => List.intercalate [','] row))

/-- Python/numpy slice `a[start:end]` for `0 ≤ start ≤ end`: both bounds clamp
to the array length. -/
def pySlice {α : Type} (a : List α) (s e : ℕ) : List α :=
  (a.take e).drop s

/-- The nil-identifier sentinel substituted on decode failure
(`ingest_HDF5.py:80, 90, 94`). -/
def nilSentinel : List Char := ("00000000-0000-0000-0000-000000000000").data

/-- The `order_id`-style identifier column extraction with decode fallback
(`ingest_HDF5.py:76-80`, likewise `maker_order_id`/`taker_order_id` at 87-94):
`np.char.decode` of the sliced raw byte column; if that raises `ValueError`
the whole column is replaced by `np.full(end, '00000000-…')` — note the
length is `end`, the chunk's absolute end index, not the slice length.
The elementwise byte decoder `dec` is a parameter; `np.char.decode` fails for
the array as a whole iff some element fails, which `mapM` models. -/
def order_id_column (dec : List ℕ → Option (List Char)) (raw : List (List ℕ)) (s e : ℕ) :
    List (List Char) :=
  ((pySlice raw s e).mapM dec).getD (List.replicate e nilSentinel)

/-- The value carried by one serialized CSV field before textual rendering:
raw integers (the unscaled `price` column, the broadcast product id),
rationals (the `divide`-scaled size columns), decoded text (sides, reasons,
identifiers), or the timestamp rendered by `datetime.fromtimestamp` from a
microsecond epoch value (`timeF us` stands for the string rendered from `us`;
the calendar rendering itself is kept abstract). -/
inductive Field where
  | intF (z : ℤ)
  | ratF (q : ℚ)
  | strF (s : List Char)
  | timeF (us : ℤ)
deriving DecidableEq

/-- `db_table_columns` (`ingest_HDF5.py:35-42`): the per-kind ordered database
column tuples. -/
def db_table_columns : List (String × List String) :=
  [(("match"), ["unique_id", "product_id", "side", "time", "price", "size",
                "maker_order_id", "taker_order_id"]),
   (("open"), ["unique_id", "product_id", "side", "time", "price", "remaining_size",
               "order_id"]),
   (("change"), ["unique_id", "product_id", "side", "time", "price", "old_size",
                 "new_size", "order_id"]),
   (("done"), ["unique_id", "product_id", "side", "time", "price", "remaining_size",
               "reason", "order_id"]),
   (("received"), ["unique_id", "order_id", "order_type", "side"])]

/-- The explicit column list of the COPY statement,
`db_table_columns[db_table[10:]][1:]` (`ingest_HDF5.py:128-129`): everything
after the store-assigned `unique_id`. -/
def copyColumns (kind : String) : Option (List String) :=
  (db_table_columns.lookup kind).map (fun cs => cs.drop 1)

/-- The column arrays assembled for a `match`-kind chunk `[s, e)` and handed to
`arrays_to_CSV_string`, in the order of `ingest_HDF5.py:113-116`; the columns
themselves are gathered at lines 71-75 and 85-94:
`product_id_array = np.full(end, product_id)` (length `e`, not the slice
length), the decoded `side` column, the timestamp column rendered from `time`,
the **raw** `price` column (line 75 applies no conversion), `size` scaled via
`np.vectorize(divide)(·, 100000000)`, and the decoded `maker_order_id` /
`taker_order_id` columns.  `side`, `maker`, `taker` are passed here as decoded
text columns; the decode-failure fallback is modelled by `order_id_column`. -/
def match_arrays (pid : ℤ) (side : List (List Char)) (time price size : List ℤ)
    (maker taker : List (List Char)) (s e : ℕ) : List (List Field) :=
  [List.replicate e (Field.intF pid),
   (pySlice side s e).map Field.strF,
   (pySlice time s e).map Field.timeF,
   (pySlice price s e).map Field.intF,
   (pySlice size s e).map (fun (z : ℤ) => Field.ratF (divide (z : ℚ) 100000000)),
   (pySlice maker s e).map Field.strF,
   (pySlice taker s e).map Field.strF]

/-- The column arrays assembled for an `open`-kind (event kind `placed`) chunk
`[s, e)`, in the order of `ingest_HDF5.py:105-108`; columns gathered at lines
71-84: the `np.full(end, product_id)` broadcast, decoded `side`, the timestamp
column from `time`, the **raw** `price` column (line 75, no conversion),
`remaining_size` scaled via `np.vectorize(divide)(·, 100000000)` (line 84),
and the decoded `order_id` column (decode fallback modelled by
`order_id_column`). -/
def open_arrays (pid : ℤ) (side : List (List Char)) (time price remaining_size : List ℤ)
    (order_id : List (List Char)) (s e : ℕ) : List (List Field) :=
  [List.replicate e (Field.intF pid),
   (pySlice side s e).map Field.strF,
   (pySlice time s e).map Field.timeF,
   (pySlice price s e).map Field.intF,
   (pySlice remaining_size s e).map (fun (z : ℤ) => Field.ratF (divide (z : ℚ) 100000000)),
   (pySlice order_id s e).map Field.strF]

/-- The column arrays assembled for a `done`-kind (event kind `removed`) chunk
`[s, e)`, in the order of `ingest_HDF5.py:109-112`; columns gathered at lines
71-84 and 99: as for `open_arrays`, plus the decoded `reason` column (line 99)
between `remaining_size` and `order_id`. -/
def done_arrays (pid : ℤ) (side : List (List Char)) (time price remaining_size : List ℤ)
    (reason order_id : List (List Char)) (s e : ℕ) : List (List Field) :=
  [List.replicate e (Field.intF pid),
   (pySlice side s e).map Field.strF,
   (pySlice time s e).map Field.timeF,
   (pySlice price s e).map Field.intF,
   (pySlice remaining_size s e).map (fun (z : ℤ) => Field.ratF (divide (z : ℚ) 100000000)),
   (pySlice reason s e).map Field.strF,
   (pySlice order_id s e).map Field.strF]

/-- The column arrays assembled for a `change`-kind (event kind `amended`)
chunk `[s, e)`, in the order of `ingest_HDF5.py:117-120`; columns gathered at
lines 71-80 and 96-97: the broadcast product id, decoded `side`, timestamp,
the **raw** `price` column (line 75, no conversion), `old_size` and `new_size`
each scaled via `np.vectorize(divide)(·, 100000000)` (lines 96-97), and the
decoded `order_id` column. -/
def change_arrays (pid : ℤ) (side : List (List Char)) (time price old_size new_size : List ℤ)
    (order_id : List (List Char)) (s e : ℕ) : List (List Field) :=
  [List.replicate e (Field.intF pid),
   (pySlice side s e).map Field.strF,
   (pySlice time s e).map Field.timeF,
   (pySlice price s e).map Field.intF,
   (pySlice old_size s e).map (fun (z : ℤ) => Field.ratF (divide (z : ℚ) 100000000)),
   (pySlice new_size s e).map (fun (z : ℤ) => Field.ratF (divide (z : ℚ) 100000000)),
   (pySlice order_id s e).map Field.strF]

/-- Row `i` of the serialized chunk: the `i`-th tuple produced by `zip(*arrays)`. -/
def rowAt (arrays : List (List Field)) (i : ℕ) : List Field :=
  (pyZip arrays).getD i []

/-- Field `j` of a serialized row. -/
def fieldAt (row : List Field) (j : ℕ) : Field :=
  row.getD j (Field.intF 0)

/-- Control behaviour of `assemble_data_as_string` for a table whose kind (the
`db_table` suffix `db_table[10:]`, i.e. the HDF5 group name) is `kind` and
whose row count is `R`.  The loop body runs once per emitted chunk range; a
kind outside `db_table_columns` makes the body raise on its first execution
(an `UnboundLocalError` at the `writelines` calls referencing never-assigned
column arrays, or the `KeyError` in `db_table_columns[db_table[10:]]` at
`ingest_HDF5.py:128-129`), modelled as a single error outcome.  On success the
value is the total number of serialized rows (`min(end, R) - start` per chunk,
the numpy slice length after clamping). -/
def assemble_status (kind : String) (R : ℕ) : Except String ℕ :=
  (chunkRanges R).foldlM
    (fun acc p =>
      if (db_table_columns.lookup kind).isSome then Except.ok (acc + (min p.2 R - p.1))
      else Except.error ("unhandled event kind"))
    0

/-- The `file_log` duplicate check (`ingest_HDF5.py:189-193`):
`SELECT … FROM file_log WHERE filename LIKE '%name'` — true iff some stored
filename ends with `name`. -/
def ledger_matches (ledger : List (List Char)) (name : List Char) : Bool :=
  ledger.any (fun fn => name.isSuffixOf fn)

/-- One pass of the module-level per-file loop (`ingest_HDF5.py:184-214`) for a
single file with basename `name` in directory `dir`: if no `file_log` row
matches, a row holding the h5py full path `dir + '/' + name` (lines 186-187,
198-199: `filename.filename` is the full path) is inserted and the file's
tables are processed, emitting `rows` fact rows; otherwise nothing is inserted,
no fact rows are emitted, and the skipped notice (lines 212-214) is printed.
Result: (new ledger, fact rows emitted, skipped-notice printed). -/
def process_file (ledger : List (List Char)) (dir name : List Char) (rows : ℕ) :
    List (List Char) × ℕ × Bool :=
  if ledger_matches ledger name then (ledger, 0, true)
  else (ledger ++ [dir ++ '/' :: name], rows, false)

/-- A row of the `product` dimension table, minus the store-assigned
`unique_id`: the row at (0-based) position `i` of the table list carries
`unique_id = i + 1` (serial, append-only, never reused). -/
structure ProductRow where
  symbol : String
  currency : String
  pname : String
  exchange : String
deriving DecidableEq

/-- The dimension key of `product`: `(symbol, currency, exchange)`. -/
def product_key_matches (q : ProductRow) (sym cur exch : String) : Bool :=
  q.symbol == sym && q.currency == cur && q.exchange == exch

/-- `insert_product_id` (`ingest_HDF5.py:141-147`):
`INSERT INTO product (unique_id, symbol, currency, name, exchange) VALUES
(DEFAULT, …) ON CONFLICT DO NOTHING`.  Modelled from the spec: the conflict
target — a uniqueness constraint on `(symbol, currency, exchange)` — is
declared in `create_tables.sql`, which is not under `src/`; §4.5 of the spec
mandates an idempotent upsert via a uniqueness constraint with
ignore-on-conflict semantics, so the insert appends the row only if no row
with the same key exists. -/
def insert_product_id (tbl : List ProductRow) (sym cur pname exch : String) :
    List ProductRow :=
  if tbl.any (fun q => product_key_matches q sym cur exch) then tbl
  else tbl ++ [⟨sym, cur, pname, exch⟩]

/-- The `SELECT unique_id … WHERE symbol=… AND currency=… AND exchange=…`
followed by `fetchone()[0]` inside `populate_product_table`
(`ingest_HDF5.py:154-161`): the id of the first matching row, or `0` when the
bare `except` catches the subscript on a missing row. -/
def lookup_unique_id (tbl : List ProductRow) (sym cur exch : String) : ℕ :=
  match tbl.findIdx? (fun q => product_key_matches q sym cur exch) with
  | some i => i + 1
  | none => 0

/-- `populate_product_table` (`ingest_HDF5.py:150-162`): returns the sentinel
`0` without querying when the HDF5 table for the current (group, table) pair
is empty (`h5[group + '/' + table].shape[0] > 0` fails, `R` the row count),
otherwise the looked-up id. -/
def populate_product_table (tbl : List ProductRow) (R : ℕ) (sym cur exch : String) : ℕ :=
  if 0 < R then lookup_unique_id tbl sym cur exch else 0

/-- The per-table orchestration (`ingest_HDF5.py:205-208`): upsert the product,
resolve the id, then run `assemble_data_as_string`, whose chunks each emit
`min(end, R) - start` fact rows (numpy slices clamp to `R`), every one
broadcasting the resolved `product_id` (`np.full`, line 72).  The third
component lists the product reference carried by each emitted fact row. -/
def processTable (tbl : List ProductRow) (R : ℕ) (sym cur pname exch : String) :
    List ProductRow × ℕ × List ℕ :=
  let tbl2 := insert_product_id tbl sym cur pname exch
  let pid := populate_product_table tbl2 R sym cur exch
  (tbl2, pid, (chunkRanges R).flatMap (fun p => List.replicate (min p.2 R - p.1) pid))

/-- A `filterMap` by a function that succeeds on every element of the list is a `map`. -/
theorem filterMap_eq_map_on {α β : Type} (l : List α) (g : α → Option β) (f : α → β)
    (h : ∀ i ∈ l, g i = some (f i)) : l.filterMap g = l.map f := by
  induction l with
  | nil => rfl
  | cons a l ih =>
    have ha := h a (List.mem_cons_self a l)
    simp [List.filterMap_cons, ha, ih (fun i hi => h i (List.mem_cons_of_mem a hi))]

/-- Closed form of the chunk loop: with `M = ⌈R / 10⁶⌉`, the emitted ranges are
`(i·10⁶, (i+1)·10⁶)` for `i < M`, except that `end` is clamped to `R` when
`R < 10⁶` (and only then — later ranges are never clamped). -/
theorem chunkRanges_eq (R : ℕ) :
    chunkRanges R = (List.range ((R + 999999) / 1000000)).map
      (fun i => (i * 1000000, if R < 1000000 then R else (i + 1) * 1000000)) := by
  have hM : (R + 999999) / 1000000 ≤ chunkCount R := by
    unfold chunkCount
    split
    · split <;> omega
    · omega
  have h1 : (List.range ((R + 999999) / 1000000)).filterMap (chunkBody R)
      = (List.range ((R + 999999) / 1000000)).map
        (fun i => (i * 1000000, if R < 1000000 then R else (i + 1) * 1000000)) := by
    apply filterMap_eq_map_on
    intro i hi
    rw [List.mem_range] at hi
    have hlt : R > i * 1000000 := by omega
    simp only [chunkBody, if_pos hlt]
  have h2 : ∀ l : List ℕ, (∀ a ∈ l, (R + 999999) / 1000000 ≤ a) →
      l.filterMap (chunkBody R) = [] := by
    intro l hl
    rw [List.filterMap_eq_nil_iff]
    intro a ha
    have hge : ¬ R > a * 1000000 := by
      have := hl a ha
      omega
    simp only [chunkBody, if_neg hge]
  unfold chunkRanges
  rw [show chunkCount R = (R + 999999) / 1000000 + (chunkCount R - (R + 999999) / 1000000)
        from by omega,
      List.range_add, List.filterMap_append, h1,
      h2 _ (by intro a ha; simp only [List.mem_map, List.mem_range] at ha; omega),
      List.append_nil]

/-- C1 counterexample: at row count `R = 1500000` (chunk bound `10⁶`) the loop
emits the range `(1000000, 2000000)`, whose `end` exceeds `R`: the `end`
variable is clamped to `number_of_rows` only when `number_of_rows < chunk`,
which never fires once a second chunk exists.  This contradicts the claim that
no range extends past `R`. -/
theorem chunkRanges_overshoot_cex :
    chunkRanges 1500000 = [(0, 1000000), (1000000, 2000000)] ∧
    ¬ ∀ p ∈ chunkRanges 1500000, p.2 ≤ 1500000 := by
  constructor
  · rfl
  · intro h
    exact absurd (h (1000000, 2000000) (by rw [show chunkRanges 1500000 =
      [(0, 1000000), (1000000, 2000000)] from rfl]; simp)) (by omega)

/-- C1 (amended): the `(start, end)` ranges emitted by the chunk loop of
`assemble_data_as_string` (chunk bound `C = 10⁶`) are nonempty, consecutive
(each range's `end` is the next range's `start`, hence disjoint and in
increasing order), of length at most `C`, every `start` lies below the row
count `R`, together they cover every row index `j < R`, when `R` is an exact
multiple of `C` no range extends past `R` (in particular no trailing empty
range), and when `R = 0` no ranges are emitted.  (Unlike the original claim,
the final range's `end` may exceed `R` when `C < R` and `C ∤ R`; the slice is
clamped downstream by numpy indexing.) -/
theorem chunkRanges_cover (R : ℕ) :
    (R = 0 → chunkRanges R = []) ∧
    (chunkRanges R).Chain' (fun p q => p.2 = q.1) ∧
    (∀ p ∈ chunkRanges R, p.1 < p.2 ∧ p.2 - p.1 ≤ 1000000 ∧ p.1 < R) ∧
    (∀ j, j < R → ∃ p ∈ chunkRanges R, p.1 ≤ j ∧ j < p.2) ∧
    (R % 1000000 = 0 → ∀ p ∈ chunkRanges R, p.2 ≤ R) := by
  refine ⟨?_, ?_, ?_, ?_, ?_⟩
  · intro h
    subst h
    rfl
  · rw [chunkRanges_eq, List.chain'_map]
    rcases Nat.eq_zero_or_pos ((R + 999999) / 1000000) with h | h
    · rw [h, List.range_zero]
      exact List.chain'_nil
    · obtain ⟨m, hm⟩ : ∃ m, (R + 999999) / 1000000 = m + 1 := ⟨_, (Nat.succ_pred_eq_of_pos h).symm⟩
      rw [hm, List.chain'_range_succ]
      intro i hi
      have hR : ¬ R < 1000000 := by omega
      simp only [if_neg hR]
  · intro p hp
    rw [chunkRanges_eq] at hp
    simp only [List.mem_map, List.mem_range] at hp
    obtain ⟨i, hi, rfl⟩ := hp
    by_cases h : R < 1000000 <;> simp only [if_pos, if_neg, h, ite_true, ite_false] <;>
      refine ⟨by omega, by omega, by omega⟩
  · intro j hj
    rw [chunkRanges_eq]
    refine ⟨((j / 1000000) * 1000000, if R < 1000000 then R else (j / 1000000 + 1) * 1000000),
      List.mem_map.mpr ⟨j / 1000000, List.mem_range.mpr (by omega), rfl⟩, by omega, ?_⟩
    by_cases h : R < 1000000 <;> simp only [h, ite_true, ite_false] <;> omega
  · intro hmod p hp
    rw [chunkRanges_eq] at hp
    simp only [List.mem_map, List.mem_range] at hp
    obtain ⟨i, hi, rfl⟩ := hp
    by_cases h : R < 1000000 <;> simp only [h, ite_true, ite_false] <;> omega

/-- Witness for `chunkRanges_cover`: each hypothesis discharged at a concrete
row count (`0`, `2500000` with covered index `1234567`, and the exact multiple
`2000000`). -/
theorem chunkRanges_cover_witness :
    chunkRanges 0 = [] ∧
    ((0, 1000000).1 < (0, 1000000).2 ∧ (0, 1000000).2 - (0, 1000000).1 ≤ 1000000 ∧
      (0, 1000000).1 < 2500000) ∧
    (∃ p ∈ chunkRanges 2500000, p.1 ≤ 1234567 ∧ 1234567 < p.2) ∧
    (∀ p ∈ chunkRanges 2000000, p.2 ≤ 2000000) :=
  ⟨(chunkRanges_cover 0).1 rfl,
   (chunkRanges_cover 2500000).2.2.1 (0, 1000000) (by rw [show chunkRanges 2500000 =
      [(0, 1000000), (1000000, 2000000), (2000000, 3000000)] from rfl]; simp),
   (chunkRanges_cover 2500000).2.2.2.1 1234567 (by omega),
   (chunkRanges_cover 2000000).2.2.2.2 rfl⟩

theorem foldl_min_le (l : List ℕ) (n : ℕ) :
    l.foldl min n ≤ n ∧ ∀ m ∈ l, l.foldl min n ≤ m := by
  induction l generalizing n with
  | nil => exact ⟨le_refl n, by simp⟩
  | cons m l ih =>
    simp only [List.foldl_cons]
    refine ⟨le_trans (ih (min n m)).1 (min_le_left n m), ?_⟩
    intro x hx
    rcases List.mem_cons.mp hx with rfl | hx
    · exact le_trans (ih (min n x)).1 (min_le_right n x)
    · exact (ih (min n m)).2 x hx

theorem pyZipLen_le {α : Type} (arrays : List (List α)) (a : List α) (ha : a ∈ arrays) :
    pyZipLen arrays ≤ a.length := by
  match arrays with
  | [] => cases ha
  | x :: xs =>
    show (xs.map List.length).foldl min x.length ≤ a.length
    rcases List.mem_cons.mp ha with rfl | hx
    · exact (foldl_min_le _ _).1
    · exact (foldl_min_le (xs.map List.length) x.length).2 a.length
        (List.mem_map_of_mem List.length hx)

theorem pyZip_length {α : Type} (arrays : List (List α)) :
    (pyZip arrays).length = pyZipLen arrays := by
  simp [pyZip]

theorem pyZip_row {α : Type} (arrays : List (List α)) (i : ℕ) (hi : i < pyZipLen arrays) :
    (pyZip arrays)[i]? = some (arrays.filterMap (fun a => a[i]?)) := by
  unfold pyZip
  rw [List.getElem?_map, List.getElem?_range hi]
  rfl

/-- On a row index that is in bounds for every column, the `zip` row is just the
list of `i`-th elements (no column is skipped). -/
theorem filterMap_getElem_all {α : Type} (d : α) (arrays : List (List α)) (i : ℕ)
    (h : ∀ a ∈ arrays, i < a.length) :
    arrays.filterMap (fun a => a[i]?) = arrays.map (fun a => a.getD i d) := by
  induction arrays with
  | nil => rfl
  | cons a l ih =>
    have ha : i < a.length := h a (List.mem_cons_self a l)
    simp only [List.filterMap_cons, List.getElem?_eq_getElem ha, List.map_cons,
        List.getD_eq_getElem?_getD, Option.getD_some]
    rw [ih (fun b hb => h b (List.mem_cons_of_mem a hb))]
    simp only [List.getD_eq_getElem?_getD]

/-- `pyZip` on exactly two columns agrees with the standard truncating `List.zip`. -/
theorem pyZip_pair {α : Type} (a b : List α) :
    pyZip [a, b] = (a.zip b).map (fun p => [p.1, p.2]) := by
  have hlen : pyZipLen [a, b] = min a.length b.length := rfl
  apply List.ext_getElem?
  intro i
  by_cases hi : i < min a.length b.length
  · obtain ⟨x, hx⟩ : ∃ x, a[i]? = some x := ⟨_, List.getElem?_eq_getElem (by omega)⟩
    obtain ⟨y, hy⟩ : ∃ y, b[i]? = some y := ⟨_, List.getElem?_eq_getElem (by omega)⟩
    have hz : (a.zip b)[i]? = some (x, y) := by
      rw [List.getElem?_zip_eq_some]
      exact ⟨hx, hy⟩
    rw [pyZip_row _ i (by omega), List.getElem?_map, hz]
    simp only [Option.map_some', List.filterMap_cons, List.filterMap_nil, hx, hy]
  · rw [List.getElem?_eq_none (by rw [pyZip_length, hlen]; omega),
        List.getElem?_eq_none (by rw [List.length_map, List.length_zip]; omega)]

theorem intercalate_pair {α : Type} (sep x y : List α) :
    List.intercalate sep [x, y] = x ++ sep ++ y := by
  simp [List.intercalate, List.intersperse]

/-- C10: `arrays_to_CSV_string` serializes the input column arrays row-major —
rows are the elementwise tuples of the columns, truncated to the shortest
column (surplus elements of longer columns are silently dropped, nothing is
raised), fields joined by `,`, rows joined by `\n` with no trailing terminator
(`'\n'.join` puts separators only between rows).  Stated for two columns
against the standard truncating `List.zip`. -/
theorem arrays_to_CSV_string_spec (a b : List (List Char)) :
    arrays_to_CSV_string [a, b]
      = List.intercalate ['\n'] ((a.zip b).map (fun p => p.1 ++ [','] ++ p.2)) ∧
    (a.zip b).length = min a.length b.length := by
  refine ⟨?_, List.length_zip a b⟩
  unfold arrays_to_CSV_string
  rw [pyZip_pair, List.map_map]
  congr 1
  apply List.map_congr_left
  intro p _
  exact intercalate_pair [','] p.1 p.2

/-- C6: the scaled-decimal conversion `divide`: for nonzero scale the result is
the exact quotient, division by a zero scale yields `0` instead of raising, and
the spec's sample vector `[0, 10⁸, 5·10⁷]` at scale `10⁸` maps to `[0, 1, 1/2]`. -/
theorem divide_spec :
    (∀ a s : ℚ, s ≠ 0 → divide a s = a / s) ∧
    (∀ a : ℚ, divide a 0 = 0) ∧
    [(0 : ℚ), 100000000, 50000000].map (fun a => divide a 100000000) = [0, 1, 1/2] := by
  refine ⟨?_, ?_, ?_⟩
  · intro a s hs
    simp [divide, hs]
  · intro a
    simp [divide]
  · norm_num [divide]

/-- Witness for `divide_spec`: the nonzero-scale clause at `a = 3`, `s = 2`. -/
theorem divide_spec_witness : divide 3 2 = 3 / 2 ∧ divide 7 0 = 0 :=
  ⟨divide_spec.1 3 2 (by norm_num), divide_spec.2.1 7⟩

theorem pySlice_full {α : Type} (a : List α) (n : ℕ) (h : a.length = n) :
    pySlice a 0 n = a := by
  subst h
  simp [pySlice]

/-- C4 counterexample: for the second chunk of a 1,500,000-row dataset
(`start = 10⁶`, `end = 2·10⁶`, slice length `n = 500000`) a failing decode
produces a fallback array of length `end = 2·10⁶`, not of the chunk length
`n` — the claim that the output always has length `n` fails. -/
theorem order_id_fallback_length_cex :
    (order_id_column (fun _ => none) (List.replicate 1500000 ([] : List ℕ))
        1000000 2000000).length = 2000000 ∧
    (pySlice (List.replicate 1500000 ([] : List ℕ)) 1000000 2000000).length = 500000 ∧
    (2000000 : ℕ) ≠ 500000 := by
  have hslice : pySlice (List.replicate 1500000 ([] : List ℕ)) 1000000 2000000
      = List.replicate 500000 ([] : List ℕ) := by
    unfold pySlice
    rw [List.take_replicate, List.drop_replicate]
    norm_num
  have hfail : ∀ k : ℕ, 0 < k →
      (List.replicate k ([] : List ℕ)).mapM (fun _ => (none : Option (List Char))) = none := by
    intro k hk
    obtain ⟨m, rfl⟩ : ∃ m, k = m + 1 := ⟨k - 1, by omega⟩
    rw [List.replicate_succ, List.mapM_cons]
    rfl
  refine ⟨?_, by rw [hslice, List.length_replicate], by norm_num⟩
  unfold order_id_column
  rw [hslice, hfail 500000 (by norm_num), Option.getD_none, List.length_replicate]

/-- C4 (amended): on decode failure for an identifier column, every element of
the transformer's output for that chunk is the nil-identifier sentinel — an
all-or-nothing fallback, never a mix — and the output has length `end`, the
chunk's absolute end index.  (`end` equals the chunk length only for the first
chunk; the surplus of later chunks is dropped at serialization by `zip`
truncation.) -/
theorem order_id_fallback (dec : List ℕ → Option (List Char)) (raw : List (List ℕ)) (s e : ℕ)
    (h : (pySlice raw s e).mapM dec = none) :
    order_id_column dec raw s e = List.replicate e nilSentinel ∧
    (order_id_column dec raw s e).length = e ∧
    ∀ x ∈ order_id_column dec raw s e, x = nilSentinel := by
  unfold order_id_column
  rw [h, Option.getD_none]
  exact ⟨rfl, List.length_replicate e nilSentinel,
    fun x hx => List.eq_of_mem_replicate hx⟩

/-- Witness for `order_id_fallback`: a decoder that rejects everything, on a
one-element first chunk. -/
theorem order_id_fallback_witness :
    order_id_column (fun _ => none) [([] : List ℕ)] 0 1 = List.replicate 1 nilSentinel :=
  (order_id_fallback (fun _ => none) [([] : List ℕ)] 0 1 rfl).1

theorem getD_map_of_lt {α β : Type} (f : α → β) (l : List α) (i : ℕ) (d : β) (d' : α)
    (h : i < l.length) : (l.map f).getD i d = f (l.getD i d') := by
  rw [List.getD_eq_getElem?_getD, List.getElem?_map, List.getElem?_eq_getElem h,
      Option.map_some', Option.getD_some, List.getD_eq_getElem?_getD,
      List.getElem?_eq_getElem h, Option.getD_some]

theorem getD_replicate_of_lt {α : Type} (x d : α) (n i : ℕ) (h : i < n) :
    (List.replicate n x).getD i d = x := by
  rw [List.getD_eq_getElem?_getD,
      List.getElem?_eq_getElem (by rw [List.length_replicate]; exact h)]
  simp

/-- On a row index in bounds for every column, row `i` of the serialized chunk
is the list of `i`-th column entries. -/
theorem rowAt_eq_map (arrays : List (List Field)) (i : ℕ) (hlen : i < pyZipLen arrays)
    (hb : ∀ a ∈ arrays, i < a.length) :
    rowAt arrays i = arrays.map (fun a => a.getD i (Field.intF 0)) := by
  unfold rowAt
  rw [List.getD_eq_getElem?_getD, pyZip_row arrays i hlen, Option.getD_some,
      filterMap_getElem_all (Field.intF 0) arrays i hb]

/-- Shared shape lemma for `match`-kind chunks over columns of equal length
`n`, sliced as the first chunk `[0, n)`: the serialized chunk has `n` rows and
row `i` is exactly the seven-field tuple
`(product, side, time, price, size, maker, taker)`. -/
theorem match_chunk_rowAt (pid : ℤ) (side : List (List Char)) (time price size : List ℤ)
    (maker taker : List (List Char)) (n i : ℕ)
    (hside : side.length = n) (htime : time.length = n) (hprice : price.length = n)
    (hsize : size.length = n) (hmaker : maker.length = n) (htaker : taker.length = n)
    (hi : i < n) :
    (pyZip (match_arrays pid side time price size maker taker 0 n)).length = n ∧
    rowAt (match_arrays pid side time price size maker taker 0 n) i
      = [Field.intF pid, Field.strF (side.getD i []), Field.timeF (time.getD i 0),
         Field.intF (price.getD i 0), Field.ratF (divide ((size.getD i 0 : ℤ) : ℚ) 100000000),
         Field.strF (maker.getD i []), Field.strF (taker.getD i [])] := by
  have hX : match_arrays pid side time price size maker taker 0 n
      = [List.replicate n (Field.intF pid), side.map Field.strF, time.map Field.timeF,
         price.map Field.intF, size.map (fun (z : ℤ) => Field.ratF (divide (z : ℚ) 100000000)),
         maker.map Field.strF, taker.map Field.strF] := by
    unfold match_arrays
    rw [pySlice_full side n hside, pySlice_full time n htime, pySlice_full price n hprice,
        pySlice_full size n hsize, pySlice_full maker n hmaker, pySlice_full taker n htaker]
  have hlen : pyZipLen [List.replicate n (Field.intF pid), side.map Field.strF,
      time.map Field.timeF, price.map Field.intF,
      size.map (fun (z : ℤ) => Field.ratF (divide (z : ℚ) 100000000)),
      maker.map Field.strF, taker.map Field.strF] = n := by
    simp [pyZipLen, hside, htime, hprice, hsize, hmaker, htaker]
  have hb : ∀ a ∈ [List.replicate n (Field.intF pid), side.map Field.strF,
      time.map Field.timeF, price.map Field.intF,
      size.map (fun (z : ℤ) => Field.ratF (divide (z : ℚ) 100000000)),
      maker.map Field.strF, taker.map Field.strF], i < a.length := by
    intro a ha
    simp only [List.mem_cons, List.not_mem_nil, or_false] at ha
    rcases ha with rfl | rfl | rfl | rfl | rfl | rfl | rfl <;>
      simp [hside, htime, hprice, hsize, hmaker, htaker, hi]
  constructor
  · rw [pyZip_length, hX]
    exact hlen
  · rw [hX]
    unfold rowAt
    rw [List.getD_eq_getElem?_getD, pyZip_row _ i (by rw [hlen]; exact hi), Option.getD_some,
        filterMap_getElem_all (Field.intF 0) _ i hb]
    simp only [List.map_cons, List.map_nil]
    rw [getD_replicate_of_lt _ _ _ _ hi,
        getD_map_of_lt Field.strF side i _ [] (by omega),
        getD_map_of_lt Field.timeF time i _ 0 (by omega),
        getD_map_of_lt Field.intF price i _ 0 (by omega),
        getD_map_of_lt (fun (z : ℤ) => Field.ratF (divide (z : ℚ) 100000000)) size i _ 0 (by omega),
        getD_map_of_lt Field.strF maker i _ [] (by omega),
        getD_map_of_lt Field.strF taker i _ [] (by omega)]

/-- C5: for event kind `executed` (HDF5 group `match`), every serialized row
consists of exactly the seven fields `product, side, time, price, size,
maker_order_id, taker_order_id`, in that exact order, with no extra and no
missing fields — and this is exactly the COPY column list
`db_table_columns['match'][1:]`.  Stated for a chunk `[0, n)` over columns of
length `n`. -/
theorem match_row_fields (pid : ℤ) (side : List (List Char)) (time price size : List ℤ)
    (maker taker : List (List Char)) (n i : ℕ)
    (hside : side.length = n) (htime : time.length = n) (hprice : price.length = n)
    (hsize : size.length = n) (hmaker : maker.length = n) (htaker : taker.length = n)
    (hi : i < n) :
    (pyZip (match_arrays pid side time price size maker taker 0 n)).length = n ∧
    rowAt (match_arrays pid side time price size maker taker 0 n) i
      = [Field.intF pid, Field.strF (side.getD i []), Field.timeF (time.getD i 0),
         Field.intF (price.getD i 0), Field.ratF (divide ((size.getD i 0 : ℤ) : ℚ) 100000000),
         Field.strF (maker.getD i []), Field.strF (taker.getD i [])] ∧
    copyColumns ("match") = some ["product_id", "side", "time", "price", "size",
                                  "maker_order_id", "taker_order_id"] :=
  ⟨(match_chunk_rowAt pid side time price size maker taker n i hside htime hprice hsize
      hmaker htaker hi).1,
   (match_chunk_rowAt pid side time price size maker taker n i hside htime hprice hsize
      hmaker htaker hi).2,
   rfl⟩

/-- Witness for `match_row_fields`: the spec's three-row synthetic input
(`side = [buy, sell, buy]`, raw sizes `[10⁸, 5·10⁷, 25·10⁶]`), row `1`. -/
theorem match_row_fields_witness :
    rowAt (match_arrays 7 [("buy").data, ("sell").data, ("buy").data] [0, 1, 2]
        [10050000000, 10100000000, 9975000000] [100000000, 50000000, 25000000]
        [("m1").data, ("m2").data, ("m3").data] [("t1").data, ("t2").data, ("t3").data] 0 3) 1
      = [Field.intF 7, Field.strF (("sell").data), Field.timeF 1, Field.intF 10100000000,
         Field.ratF (divide ((50000000 : ℤ) : ℚ) 100000000), Field.strF (("m2").data),
         Field.strF (("t2").data)] :=
  (match_row_fields 7 [("buy").data, ("sell").data, ("buy").data] [0, 1, 2]
      [10050000000, 10100000000, 9975000000] [100000000, 50000000, 25000000]
      [("m1").data, ("m2").data, ("m3").data] [("t1").data, ("t2").data, ("t3").data] 3 1
      rfl rfl rfl rfl rfl rfl (by norm_num)).2.1

/-- C3 counterexample: the serialized `price` field is the raw fixed-point
integer, not the scaled value: at raw price `10⁸` the emitted field is
`intF 10⁸`, whereas the claimed `value / 10⁸` conversion (applied to the size
fields) would yield `ratF 1`.  (`ingest_HDF5.py:75` assigns
`price_array = h5[…]['price'][start:end]` with no conversion.) -/
theorem price_not_scaled_cex :
    fieldAt (rowAt (match_arrays 1 [['b']] [0] [100000000] [50000000] [[]] [[]] 0 1) 0) 3
      = Field.intF 100000000 ∧
    Field.intF 100000000 ≠ Field.ratF (divide ((100000000 : ℤ) : ℚ) 100000000) :=
  ⟨rfl, fun h => Field.noConfusion h⟩

/-- C3 (amended): for every event kind whose serialization carries a price
column — `match` (executed), `open` (placed), `change` (amended), `done`
(removed) — the serialized `price` field (position 3 of every row) carries the
raw fixed-point integer unchanged: it does **not** receive the `value / 10⁸`
scaled-decimal conversion.  The size-type fields of those kinds — `size`
(match), `remaining_size` (open, done), `old_size` and `new_size` (change) —
do receive it (`divide(raw, 10⁸)`).  `sz1` plays the single size-type raw
column of match/open/done and `old_size` of change; `sz2` plays `new_size`;
`txt1`/`txt2` the kinds' text columns. -/
theorem price_raw_size_scaled (pid : ℤ) (side : List (List Char))
    (time price sz1 sz2 : List ℤ) (txt1 txt2 : List (List Char)) (n i : ℕ)
    (hside : side.length = n) (htime : time.length = n) (hprice : price.length = n)
    (hsz1 : sz1.length = n) (hsz2 : sz2.length = n) (htxt1 : txt1.length = n)
    (htxt2 : txt2.length = n) (hi : i < n) :
    (fieldAt (rowAt (match_arrays pid side time price sz1 txt1 txt2 0 n) i) 3
        = Field.intF (price.getD i 0) ∧
      fieldAt (rowAt (match_arrays pid side time price sz1 txt1 txt2 0 n) i) 4
        = Field.ratF (divide ((sz1.getD i 0 : ℤ) : ℚ) 100000000)) ∧
    (fieldAt (rowAt (open_arrays pid side time price sz1 txt1 0 n) i) 3
        = Field.intF (price.getD i 0) ∧
      fieldAt (rowAt (open_arrays pid side time price sz1 txt1 0 n) i) 4
        = Field.ratF (divide ((sz1.getD i 0 : ℤ) : ℚ) 100000000)) ∧
    (fieldAt (rowAt (done_arrays pid side time price sz1 txt1 txt2 0 n) i) 3
        = Field.intF (price.getD i 0) ∧
      fieldAt (rowAt (done_arrays pid side time price sz1 txt1 txt2 0 n) i) 4
        = Field.ratF (divide ((sz1.getD i 0 : ℤ) : ℚ) 100000000)) ∧
    (fieldAt (rowAt (change_arrays pid side time price sz1 sz2 txt1 0 n) i) 3
        = Field.intF (price.getD i 0) ∧
      fieldAt (rowAt (change_arrays pid side time price sz1 sz2 txt1 0 n) i) 4
        = Field.ratF (divide ((sz1.getD i 0 : ℤ) : ℚ) 100000000) ∧
      fieldAt (rowAt (change_arrays pid side time price sz1 sz2 txt1 0 n) i) 5
        = Field.ratF (divide ((sz2.getD i 0 : ℤ) : ℚ) 100000000)) := by
  have hqm := (match_chunk_rowAt pid side time price sz1 txt1 txt2 n i hside htime hprice
      hsz1 htxt1 htxt2 hi).2
  have hXo : open_arrays pid side time price sz1 txt1 0 n
      = [List.replicate n (Field.intF pid), side.map Field.strF, time.map Field.timeF,
         price.map Field.intF,
         sz1.map (fun (z : ℤ) => Field.ratF (divide (z : ℚ) 100000000)),
         txt1.map Field.strF] := by
    unfold open_arrays
    rw [pySlice_full side n hside, pySlice_full time n htime, pySlice_full price n hprice,
        pySlice_full sz1 n hsz1, pySlice_full txt1 n htxt1]
  have hlo : pyZipLen [List.replicate n (Field.intF pid), side.map Field.strF,
      time.map Field.timeF, price.map Field.intF,
      sz1.map (fun (z : ℤ) => Field.ratF (divide (z : ℚ) 100000000)),
      txt1.map Field.strF] = n := by
    simp [pyZipLen, hside, htime, hprice, hsz1, htxt1]
  have hbo : ∀ a ∈ [List.replicate n (Field.intF pid), side.map Field.strF,
      time.map Field.timeF, price.map Field.intF,
      sz1.map (fun (z : ℤ) => Field.ratF (divide (z : ℚ) 100000000)),
      txt1.map Field.strF], i < a.length := by
    intro a ha
    simp only [List.mem_cons, List.not_mem_nil, or_false] at ha
    rcases ha with rfl | rfl | rfl | rfl | rfl | rfl <;>
      simp [hside, htime, hprice, hsz1, htxt1, hi]
  have hXd : done_arrays pid side time price sz1 txt1 txt2 0 n
      = [List.replicate n (Field.intF pid), side.map Field.strF, time.map Field.timeF,
         price.map Field.intF,
         sz1.map (fun (z : ℤ) => Field.ratF (divide (z : ℚ) 100000000)),
         txt1.map Field.strF, txt2.map Field.strF] := by
    unfold done_arrays
    rw [pySlice_full side n hside, pySlice_full time n htime, pySlice_full price n hprice,
        pySlice_full sz1 n hsz1, pySlice_full txt1 n htxt1, pySlice_full txt2 n htxt2]
  have hld : pyZipLen [List.replicate n (Field.intF pid), side.map Field.strF,
      time.map Field.timeF, price.map Field.intF,
      sz1.map (fun (z : ℤ) => Field.ratF (divide (z : ℚ) 100000000)),
      txt1.map Field.strF, txt2.map Field.strF] = n := by
    simp [pyZipLen, hside, htime, hprice, hsz1, htxt1, htxt2]
  have hbd : ∀ a ∈ [List.replicate n (Field.intF pid), side.map Field.strF,
      time.map Field.timeF, price.map Field.intF,
      sz1.map (fun (z : ℤ) => Field.ratF (divide (z : ℚ) 100000000)),
      txt1.map Field.strF, txt2.map Field.strF], i < a.length := by
    intro a ha
    simp only [List.mem_cons, List.not_mem_nil, or_false] at ha
    rcases ha with rfl | rfl | rfl | rfl | rfl | rfl | rfl <;>
      simp [hside, htime, hprice, hsz1, htxt1, htxt2, hi]
  have hXc : change_arrays pid side time price sz1 sz2 txt1 0 n
      = [List.replicate n (Field.intF pid), side.map Field.strF, time.map Field.timeF,
         price.map Field.intF,
         sz1.map (fun (z : ℤ) => Field.ratF (divide (z : ℚ) 100000000)),
         sz2.map (fun (z : ℤ) => Field.ratF (divide (z : ℚ) 100000000)),
         txt1.map Field.strF] := by
    unfold change_arrays
    rw [pySlice_full side n hside, pySlice_full time n htime, pySlice_full price n hprice,
        pySlice_full sz1 n hsz1, pySlice_full sz2 n hsz2, pySlice_full txt1 n htxt1]
  have hlc : pyZipLen [List.replicate n (Field.intF pid), side.map Field.strF,
      time.map Field.timeF, price.map Field.intF,
      sz1.map (fun (z : ℤ) => Field.ratF (divide (z : ℚ) 100000000)),
      sz2.map (fun (z : ℤ) => Field.ratF (divide (z : ℚ) 100000000)),
      txt1.map Field.strF] = n := by
    simp [pyZipLen, hside, htime, hprice, hsz1, hsz2, htxt1]
  have hbc : ∀ a ∈ [List.replicate n (Field.intF pid), side.map Field.strF,
      time.map Field.timeF, price.map Field.intF,
      sz1.map (fun (z : ℤ) => Field.ratF (divide (z : ℚ) 100000000)),
      sz2.map (fun (z : ℤ) => Field.ratF (divide (z : ℚ) 100000000)),
      txt1.map Field.strF], i < a.length := by
    intro a ha
    simp only [List.mem_cons, List.not_mem_nil, or_false] at ha
    rcases ha with rfl | rfl | rfl | rfl | rfl | rfl | rfl <;>
      simp [hside, htime, hprice, hsz1, hsz2, htxt1, hi]
  refine ⟨⟨?_, ?_⟩, ⟨?_, ?_⟩, ⟨?_, ?_⟩, ⟨?_, ?_, ?_⟩⟩
  · rw [hqm]
    rfl
  · rw [hqm]
    rfl
  · rw [hXo, rowAt_eq_map _ i (by rw [hlo]; exact hi) hbo]
    exact getD_map_of_lt Field.intF price i _ 0 (by omega)
  · rw [hXo, rowAt_eq_map _ i (by rw [hlo]; exact hi) hbo]
    exact getD_map_of_lt (fun (z : ℤ) => Field.ratF (divide (z : ℚ) 100000000)) sz1 i _ 0
      (by omega)
  · rw [hXd, rowAt_eq_map _ i (by rw [hld]; exact hi) hbd]
    exact getD_map_of_lt Field.intF price i _ 0 (by omega)
  · rw [hXd, rowAt_eq_map _ i (by rw [hld]; exact hi) hbd]
    exact getD_map_of_lt (fun (z : ℤ) => Field.ratF (divide (z : ℚ) 100000000)) sz1 i _ 0
      (by omega)
  · rw [hXc, rowAt_eq_map _ i (by rw [hlc]; exact hi) hbc]
    exact getD_map_of_lt Field.intF price i _ 0 (by omega)
  · rw [hXc, rowAt_eq_map _ i (by rw [hlc]; exact hi) hbc]
    exact getD_map_of_lt (fun (z : ℤ) => Field.ratF (divide (z : ℚ) 100000000)) sz1 i _ 0
      (by omega)
  · rw [hXc, rowAt_eq_map _ i (by rw [hlc]; exact hi) hbc]
    exact getD_map_of_lt (fun (z : ℤ) => Field.ratF (divide (z : ℚ) 100000000)) sz2 i _ 0
      (by omega)

/-- Witness for `price_raw_size_scaled`: one-row chunk with raw price `10⁸`,
size-type raws `5·10⁷` and `25·10⁶`, exercised on the `open` and `change`
kinds. -/
theorem price_raw_size_scaled_witness :
    fieldAt (rowAt (open_arrays 1 [['b']] [0] [100000000] [50000000] [[]] 0 1) 0) 3
      = Field.intF 100000000 ∧
    fieldAt (rowAt (change_arrays 1 [['b']] [0] [100000000] [50000000] [25000000]
        [[]] 0 1) 0) 5
      = Field.ratF (divide ((25000000 : ℤ) : ℚ) 100000000) :=
  ⟨(price_raw_size_scaled 1 [['b']] [0] [100000000] [50000000] [25000000] [[]] [[]] 1 0
      rfl rfl rfl rfl rfl rfl rfl (by norm_num)).2.1.1,
   (price_raw_size_scaled 1 [['b']] [0] [100000000] [50000000] [25000000] [[]] [[]] 1 0
      rfl rfl rfl rfl rfl rfl rfl (by norm_num)).2.2.2.2.2⟩

/-- C8 counterexample: for an unknown event kind over an **empty** table
(`row_count = 0`) the chunk loop body never executes, so no error is raised —
the table is a silent no-op, contradicting “regardless of the table's row
count”. -/
theorem unknown_kind_empty_silent_cex :
    assemble_status ("nonsense") 0 = Except.ok 0 ∧
    (db_table_columns.lookup ("nonsense")).isNone = true := by
  constructor
  · rfl
  · rfl

/-- C8 (amended): a table whose kind is not one of the five known kinds raises
an error that surfaces to the orchestrator whenever the table has at least one
row (the loop body then executes and raises); with zero rows the loop body
never runs and the unknown kind is silently skipped. -/
theorem unknown_kind_raises (kind : String) (R : ℕ)
    (h : (db_table_columns.lookup kind).isNone = true) :
    (0 < R → assemble_status kind R = Except.error ("unhandled event kind")) ∧
    (R = 0 → assemble_status kind R = Except.ok 0) := by
  constructor
  · intro hR
    have hsome : ¬ (db_table_columns.lookup kind).isSome = true := by
      cases hk : db_table_columns.lookup kind
      · simp
      · rw [hk] at h
        simp at h
    obtain ⟨p, l, hpl⟩ : ∃ p l, chunkRanges R = p :: l := by
      rw [chunkRanges_eq]
      have hM : 0 < (R + 999999) / 1000000 := by omega
      obtain ⟨m, hm⟩ : ∃ m, (R + 999999) / 1000000 = m + 1 :=
        ⟨_, (Nat.succ_pred_eq_of_pos hM).symm⟩
      rw [hm, List.range_succ_eq_map, List.map_cons]
      exact ⟨_, _, rfl⟩
    unfold assemble_status
    rw [hpl, List.foldlM_cons, if_neg hsome]
    rfl
  · intro hR
    subst hR
    rfl

/-- Witness for `unknown_kind_raises`: the unknown kind at row counts `1`
(raises) and `0` (silent success). -/
theorem unknown_kind_raises_witness :
    assemble_status ("bogus") 1 = Except.error ("unhandled event kind") ∧
    assemble_status ("bogus") 0 = Except.ok 0 :=
  ⟨(unknown_kind_raises ("bogus") 1 rfl).1 (by norm_num),
   (unknown_kind_raises ("bogus") 0 rfl).2 rfl⟩

/-- C2: after a file has been processed once, processing it again emits zero
fact rows, prints the skipped notice, inserts no further ledger row, and — if
the ledger held no matching row to begin with — the ledger contains exactly one
row whose stored filename ends with the file's name: a source file is never
ingested twice across repeated runs. -/
theorem file_ingested_once (L : List (List Char)) (dir name : List Char) (rows rows2 : ℕ) :
    (process_file (process_file L dir name rows).1 dir name rows2).2.1 = 0 ∧
    (process_file (process_file L dir name rows).1 dir name rows2).2.2 = true ∧
    (process_file (process_file L dir name rows).1 dir name rows2).1
      = (process_file L dir name rows).1 ∧
    (ledger_matches L name = false →
      (process_file L dir name rows).1.countP (fun fn => name.isSuffixOf fn) = 1) := by
  have hself : name.isSuffixOf (dir ++ '/' :: name) = true := by
    rw [List.isSuffixOf_iff_suffix]
    exact ⟨dir ++ ['/'], by simp⟩
  by_cases hm : ledger_matches L name
  · have h1 : process_file L dir name rows = (L, 0, true) := by
      rw [process_file, if_pos hm]
    have h2 : process_file L dir name rows2 = (L, 0, true) := by
      rw [process_file, if_pos hm]
    simp only [h1, h2]
    refine ⟨trivial, trivial, trivial, ?_⟩
    intro hc
    rw [hm] at hc
    cases hc
  · rw [Bool.not_eq_true] at hm
    have h1 : process_file L dir name rows = (L ++ [dir ++ '/' :: name], rows, false) := by
      rw [process_file, if_neg (by rw [hm]; exact Bool.false_ne_true)]
    have hm2 : ledger_matches (L ++ [dir ++ '/' :: name]) name = true := by
      unfold ledger_matches
      rw [List.any_append]
      simp [hself]
    have h2 : process_file (L ++ [dir ++ '/' :: name]) dir name rows2
        = (L ++ [dir ++ '/' :: name], 0, true) := by
      rw [process_file, if_pos hm2]
    simp only [h1, h2]
    refine ⟨trivial, trivial, trivial, ?_⟩
    intro _
    rw [List.countP_append, List.countP_eq_zero.mpr, Nat.zero_add]
    · simp [List.countP_cons, hself]
    · intro fn hfn
      unfold ledger_matches at hm
      have := List.any_eq_false.mp hm fn hfn
      simp only [Bool.not_eq_true] at this
      simp [this]
/-- Witness for `file_ingested_once`: empty initial ledger, file `f` in
directory `d`, first run emitting 3 rows, second run 5. -/
theorem file_ingested_once_witness :
    (process_file (process_file [] ['d'] ['f'] 3).1 ['d'] ['f'] 5).2.1 = 0 ∧
    (process_file [] ['d'] ['f'] 3).1.countP (fun fn => List.isSuffixOf ['f'] fn) = 1 :=
  ⟨(file_ingested_once [] ['d'] ['f'] 3 5).1,
   (file_ingested_once [] ['d'] ['f'] 3 5).2.2.2 rfl⟩

theorem insert_product_id_found (tbl : List ProductRow) (sym cur pname exch : String) :
    (insert_product_id tbl sym cur pname exch).any
      (fun q => product_key_matches q sym cur exch) = true := by
  unfold insert_product_id
  by_cases h : tbl.any (fun q => product_key_matches q sym cur exch) = true
  · rw [if_pos h]
    exact h
  · rw [if_neg h, List.any_append]
    have : product_key_matches ⟨sym, cur, pname, exch⟩ sym cur exch = true := by
      simp [product_key_matches]
    simp [this]

/-- C7: whenever product resolution yields the zero sentinel for a
(group, table) pair, the pipeline emits no fact rows for that table, and every
emitted fact row carries a nonzero product reference: after the upsert the
lookup always finds the key (ids are the 1-based row positions), so the
sentinel arises only for an empty table — and an empty table emits no chunks. -/
theorem zero_product_no_rows (tbl : List ProductRow) (R : ℕ) (sym cur pname exch : String) :
    ((processTable tbl R sym cur pname exch).2.1 = 0 →
      (processTable tbl R sym cur pname exch).2.2 = []) ∧
    (∀ x ∈ (processTable tbl R sym cur pname exch).2.2, 0 < x) := by
  have hfound := insert_product_id_found tbl sym cur pname exch
  have hsome : ((insert_product_id tbl sym cur pname exch).findIdx?
      (fun q => product_key_matches q sym cur exch)).isSome = true := by
    rw [List.findIdx?_isSome]
    exact hfound
  have hpos : 0 < R → 0 < populate_product_table (insert_product_id tbl sym cur pname exch)
      R sym cur exch := by
    intro hR
    unfold populate_product_table
    rw [if_pos hR]
    unfold lookup_unique_id
    cases hfi : (insert_product_id tbl sym cur pname exch).findIdx?
        (fun q => product_key_matches q sym cur exch) with
    | none => rw [hfi] at hsome; cases hsome
    | some i =>
      exact Nat.succ_pos i
  constructor
  · intro hz
    rcases Nat.eq_zero_or_pos R with hR | hR
    · subst hR
      rfl
    · exfalso
      have := hpos hR
      simp only [processTable] at hz
      omega
  · intro x hx
    rcases Nat.eq_zero_or_pos R with hR | hR
    · subst hR
      cases hx
    · simp only [processTable, List.mem_flatMap] at hx
      obtain ⟨p, _, hmem⟩ := hx
      rw [List.eq_of_mem_replicate hmem]
      exact hpos hR

/-- Witness for `zero_product_no_rows`: empty table (`R = 0`, resolution yields
`0`, no rows), and a two-row table whose every emitted row references id `1`. -/
theorem zero_product_no_rows_witness :
    (processTable [] 0 ("BTC") ("USD") ("Bitcoin") ("Coinbase Pro")).2.2 = [] ∧
    (0 : ℕ) < 1 :=
  ⟨(zero_product_no_rows [] 0 ("BTC") ("USD") ("Bitcoin") ("Coinbase Pro")).1 rfl,
   (zero_product_no_rows [] 2 ("BTC") ("USD") ("Bitcoin") ("Coinbase Pro")).2 1 (by decide)⟩

/-- C9: resolving the same `(symbol, currency, exchange)` triple twice
(`insert_product_id` then `populate_product_table`, each time) is idempotent:
the second upsert changes nothing (no duplicate row, and the total functions
model the store raising no error), both resolutions return the same
identifier, and exactly one product row for the triple exists afterwards. -/
theorem product_resolution_idempotent (tbl : List ProductRow) (R : ℕ)
    (sym cur pname exch : String)
    (h : tbl.countP (fun q => product_key_matches q sym cur exch) = 0) :
    insert_product_id (insert_product_id tbl sym cur pname exch) sym cur pname exch
      = insert_product_id tbl sym cur pname exch ∧
    populate_product_table (insert_product_id (insert_product_id tbl sym cur pname exch)
        sym cur pname exch) R sym cur exch
      = populate_product_table (insert_product_id tbl sym cur pname exch) R sym cur exch ∧
    (insert_product_id tbl sym cur pname exch).countP
      (fun q => product_key_matches q sym cur exch) = 1 := by
  have hfound := insert_product_id_found tbl sym cur pname exch
  have h2 : insert_product_id (insert_product_id tbl sym cur pname exch) sym cur pname exch
      = insert_product_id tbl sym cur pname exch := by
    unfold insert_product_id
    rw [if_pos]
    unfold insert_product_id at hfound
    exact hfound
  refine ⟨h2, by rw [h2], ?_⟩
  have hany : tbl.any (fun q => product_key_matches q sym cur exch) = false := by
    rw [List.any_eq_false]
    intro q hq
    have := List.countP_eq_zero.mp h q hq
    simp_all
  unfold insert_product_id
  rw [if_neg (by rw [hany]; exact Bool.false_ne_true), List.countP_append, h, Nat.zero_add]
  have : product_key_matches ⟨sym, cur, pname, exch⟩ sym cur exch = true := by
    simp [product_key_matches]
  simp [List.countP_cons, this]

/-- Witness for `product_resolution_idempotent`: the spec's
`resolve("BTC","USD","Coinbase Pro","Bitcoin")` called twice on an empty
product table. -/
theorem product_resolution_idempotent_witness :
    insert_product_id (insert_product_id [] ("BTC") ("USD") ("Bitcoin") ("Coinbase Pro"))
        ("BTC") ("USD") ("Bitcoin") ("Coinbase Pro")
      = insert_product_id [] ("BTC") ("USD") ("Bitcoin") ("Coinbase Pro") ∧
    (insert_product_id [] ("BTC") ("USD") ("Bitcoin") ("Coinbase Pro")).countP
      (fun q => product_key_matches q ("BTC") ("USD") ("Coinbase Pro")) = 1 :=
  ⟨(product_resolution_idempotent [] 1 ("BTC") ("USD") ("Bitcoin") ("Coinbase Pro") rfl).1,
   (product_resolution_idempotent [] 1 ("BTC") ("USD") ("Bitcoin") ("Coinbase Pro") rfl).2.2⟩

end TickDB
